import Mathlib

/-!
Formal model of the `binwrite` crate's serialization core.

Bytes are modelled as `Nat` values below 256 and a byte sink as the
`List Nat` of bytes accepted so far.  Each Rust `write_options` method is
translated to a Lean function; fixed-width integers become `Nat`/`Int`
values reduced modulo `2 ^ width`, and `f32`/`f64` values are represented
by their IEEE-754 bit patterns (the `byteorder` crate serializes a float
by writing its bit pattern as the same-width unsigned integer).  The
platform byte order that `byteorder::NativeEndian` resolves to at compile
time is an explicit `Bool` parameter `host` (`true` = little-endian host).
-/

namespace Binwrite

/-- Endianness selector, from `enum Endian { Big, Little, Native }` in
`lib.rs`. -/
inductive Endian where
  | Big : Endian
  | Little : Endian
  | Native : Endian
deriving DecidableEq, Repr

/-- Encode-time options, from `struct WriterOption` in `lib.rs`; the unit
field mirrors the private `_prevent_creation: ()` marker. -/
structure WriterOption where
  endian : Endian
  prevent_creation : Unit := ()
deriving DecidableEq, Repr

/-- Rust `Default for Endian` returns `Endian::Native`. -/
def Endian.default : Endian := Endian.Native

/-- Rust `WriterOption::default()` (derived `Default`): native endian. -/
def WriterOption.default : WriterOption := ⟨Endian.default, ()⟩

/-- Options fixture selecting big-endian output. -/
def bigOpt : WriterOption := ⟨Endian.Big, ()⟩

/-- Options fixture selecting little-endian output. -/
def littleOpt : WriterOption := ⟨Endian.Little, ()⟩

/-- Options fixture selecting native-endian output. -/
def nativeOpt : WriterOption := ⟨Endian.Native, ()⟩

/-- Little-endian byte serialization of `n` into `w` bytes: byte `i` is the
`i`-th base-256 digit, least significant first (`byteorder::LittleEndian`). -/
def natLE (w n : Nat) : List Nat :=
  (List.range w).map (fun i => n / 256 ^ i % 256)

/-- Big-endian byte serialization of `n` into `w` bytes: most significant
base-256 digit first (`byteorder::BigEndian`). -/
def natBE (w n : Nat) : List Nat :=
  (List.range w).map (fun i => n / 256 ^ (w - 1 - i) % 256)

/-- Byte serialization under `byteorder::NativeEndian`, the compile-time
alias for the host platform's own order (`host = true` means the host is
little-endian). -/
def natNE (host : Bool) (w n : Nat) : List Nat :=
  if host then natLE w n else natBE w n

/-- Body of the `binwrite_impl!` macro (`binwrite_impls.rs` lines 3-23):
dispatch on `options.endian` to the `byteorder` write function for the
matching byte order, serializing into `w` bytes. -/
def endianWrite (w : Nat) (host : Bool) (n : Nat) (o : WriterOption) : List Nat :=
  match o.endian with
  | Endian.Big => natBE w n
  | Endian.Little => natLE w n
  | Endian.Native => natNE host w n

/-- Two's-complement reinterpretation of a `w`-byte signed integer as the
unsigned integer with the same `8 * w`-bit pattern (Rust `as` cast). -/
def toUnsigned (w : Nat) (i : Int) : Nat :=
  (i % (2 ^ (8 * w))).toNat

/-- Rust `impl BinWrite for u8`: write the single byte itself, ignoring the
options. -/
def u8_write_options (n : Nat) (_o : WriterOption) : List Nat :=
  [n % 256]

/-- Rust `impl BinWrite for i8`: write the byte `*self as u8`, ignoring the
options. -/
def i8_write_options (i : Int) (_o : WriterOption) : List Nat :=
  [toUnsigned 1 i]

/-- Rust `impl BinWrite for char`: write the single byte `*self as u8`
(the Unicode scalar value truncated to its low 8 bits), ignoring the
options. -/
def char_write_options (c : Nat) (_o : WriterOption) : List Nat :=
  [c % 256]

/-- `binwrite_impl!((u16, write_u16))`. -/
def u16_write_options (host : Bool) (n : Nat) (o : WriterOption) : List Nat :=
  endianWrite 2 host n o

/-- `binwrite_impl!((u32, write_u32))`. -/
def u32_write_options (host : Bool) (n : Nat) (o : WriterOption) : List Nat :=
  endianWrite 4 host n o

/-- `binwrite_impl!((u64, write_u64))`. -/
def u64_write_options (host : Bool) (n : Nat) (o : WriterOption) : List Nat :=
  endianWrite 8 host n o

/-- `binwrite_impl!((i16, write_i16))`: the two's-complement bit pattern is
serialized in the selected byte order. -/
def i16_write_options (host : Bool) (i : Int) (o : WriterOption) : List Nat :=
  endianWrite 2 host (toUnsigned 2 i) o

/-- `binwrite_impl!((i32, write_i32))`. -/
def i32_write_options (host : Bool) (i : Int) (o : WriterOption) : List Nat :=
  endianWrite 4 host (toUnsigned 4 i) o

/-- `binwrite_impl!((i64, write_i64))`. -/
def i64_write_options (host : Bool) (i : Int) (o : WriterOption) : List Nat :=
  endianWrite 8 host (toUnsigned 8 i) o

/-- `binwrite_impl!((f32, write_f32))`: `byteorder` writes the IEEE-754 bit
pattern of the float as a 4-byte unsigned integer, so the value is
represented here by that bit pattern. -/
def f32_write_options (host : Bool) (bits : Nat) (o : WriterOption) : List Nat :=
  endianWrite 4 host bits o

/-- `binwrite_impl!((f64, write_f64))`: IEEE-754 bit pattern serialized as
an 8-byte unsigned integer. -/
def f64_write_options (host : Bool) (bits : Nat) (o : WriterOption) : List Nat :=
  endianWrite 8 host bits o

/-- Bit widths of the integer types given a `BinWrite` implementation in
`binwrite_impls.rs` (u8/i8 at lines 32-44, u16/u32/u64/i16/i32/i64 via the
`binwrite_impl!` invocation at lines 46-55). -/
def supportedIntWidths : List Nat := [8, 16, 32, 64]

/-- Failure values of the sink (`std::io::Error`): `invalidInput` models
`io::ErrorKind::InvalidInput`; `other` abstracts every other sink-defined
failure, tagged by an opaque code. -/
inductive IOError where
  | invalidInput : IOError
  | other : Nat → IOError
deriving DecidableEq, Repr

/-- Rust `impl<B: BinWrite> BinWrite for Vec<B>`: loop over the elements in
index order, writing each with the same options, returning early on the
first failure.  The sink is the list of bytes accepted so far; an element
encoder returns the mutated sink together with an optional failure, so
bytes written before a failure stay in the sink. -/
def vec_write_options {α : Type}
    (enc : α → List Nat → WriterOption → List Nat × Option IOError) :
    List α → List Nat → WriterOption → List Nat × Option IOError
  | [], s, _ => (s, none)
  | x :: xs, s, o =>
    match enc x s o with
    | (s', none) => vec_write_options enc xs s' o
    | (s', some e) => (s', some e)

/-- Rust `impl<B: BinWrite> BinWrite for [B]`: the same element loop as the
`Vec` implementation. -/
def slice_write_options {α : Type}
    (enc : α → List Nat → WriterOption → List Nat × Option IOError) :
    List α → List Nat → WriterOption → List Nat × Option IOError
  | [], s, _ => (s, none)
  | x :: xs, s, o =>
    match enc x s o with
    | (s', none) => slice_write_options enc xs s' o
    | (s', some e) => (s', some e)

/-- Body generated by `binwrite_array_impl!` for each array size 0 through
20: the same element loop as the `Vec` implementation; the size bound
appears as a hypothesis in the theorems about it. -/
def array_write_options {α : Type}
    (enc : α → List Nat → WriterOption → List Nat × Option IOError) :
    List α → List Nat → WriterOption → List Nat × Option IOError
  | [], s, _ => (s, none)
  | x :: xs, s, o =>
    match enc x s o with
    | (s', none) => array_write_options enc xs s' o
    | (s', some e) => (s', some e)

/-- Body generated by `binwrite_tuple_impl!` for each arity 0 through 20:
write field 0, then field 1, ..., propagating the first failure with `?`.
A heterogeneous tuple is represented by the list of its fields' partially
applied `write_options` actions in declaration order; each action receives
the same options the tuple write was called with. -/
def tuple_write_options :
    List (List Nat → WriterOption → List Nat × Option IOError) →
    List Nat → WriterOption → List Nat × Option IOError
  | [], s, _ => (s, none)
  | g :: gs, s, o =>
    match g s o with
    | (s', none) => tuple_write_options gs s' o
    | (s', some e) => (s', some e)

/-- Lift a pure byte-emitting field (such as a primitive's `write_options`)
into a sink-passing action that appends its output and never fails. -/
def liftWriter (f : WriterOption → List Nat) :
    List Nat → WriterOption → List Nat × Option IOError :=
  fun s o => (s ++ f o, none)

/-- An element encoder used as a concrete witness: it appends the `u8`
encoding of the element and never fails. -/
def u8Elem (x : Nat) (s : List Nat) (o : WriterOption) :
    List Nat × Option IOError :=
  (s ++ u8_write_options x o, none)

/-- An element encoder used as a concrete witness for the failure policy:
values below 100 append their `u8` encoding, larger values fail with an
opaque sink error after writing nothing. -/
def failElem (x : Nat) (s : List Nat) (o : WriterOption) :
    List Nat × Option IOError :=
  if x < 100 then (s ++ u8_write_options x o, none)
  else (s, some (IOError.other 7))

/-- Seek request, from `std::io::SeekFrom`: an absolute offset from the
start, or a signed offset from the current position or from the end. -/
inductive SeekFrom where
  | Start : Nat → SeekFrom
  | Current : Int → SeekFrom
  | End : Int → SeekFrom
deriving DecidableEq, Repr

/-- Rust `struct WriteTrack<W: Write> { inner: W, pos: usize }` from
`write_track.rs`.  The wrapped sink's state has abstract type `σ`; its
`write` behaviour is passed explicitly as a function `sw` returning the
mutated sink state and either the number of bytes it accepted or an
error. -/
structure WriteTrack (σ : Type) where
  inner : σ
  pos : Nat
deriving DecidableEq, Repr

/-- Rust `WriteTrack::new`: wrap a sink with the counter at 0. -/
def WriteTrack.new {σ : Type} (inner : σ) : WriteTrack σ :=
  ⟨inner, 0⟩

/-- Rust `impl Write for WriteTrack`: forward to the inner sink, increment
`pos` by exactly the amount the sink reports accepted, propagate the
sink's own result unchanged (`?` returns the error before `pos` is
touched). -/
def WriteTrack.write {σ : Type} (sw : σ → List Nat → σ × Except IOError Nat)
    (wt : WriteTrack σ) (data : List Nat) :
    WriteTrack σ × Except IOError Nat :=
  match sw wt.inner data with
  | (s', Except.ok amount) => (⟨s', wt.pos + amount⟩, Except.ok amount)
  | (s', Except.error e) => (⟨s', wt.pos⟩, Except.error e)

/-- Rust `impl Seek for WriteTrack`: `SeekFrom::Current(0)` and
`SeekFrom::End(0)` report the counter; every other request is rejected
with `ErrorKind::InvalidInput`. -/
def WriteTrack.seek {σ : Type} (wt : WriteTrack σ) (f : SeekFrom) :
    Except IOError Nat :=
  match f with
  | SeekFrom.Current 0 => Except.ok wt.pos
  | SeekFrom.End 0 => Except.ok wt.pos
  | _ => Except.error IOError.invalidInput

/-- Number of bytes a write result reports accepted (errors accept none). -/
def acceptedOf : Except IOError Nat → Nat
  | Except.ok a => a
  | Except.error _ => 0

/-- Run a sequence of `WriteTrack.write` calls, keeping the final adapter
state. -/
def writeMany {σ : Type} (sw : σ → List Nat → σ × Except IOError Nat) :
    WriteTrack σ → List (List Nat) → WriteTrack σ
  | wt, [] => wt
  | wt, d :: ds => writeMany sw (WriteTrack.write sw wt d).1 ds

/-- The per-call accepted byte counts the sink reports along a sequence of
`WriteTrack.write` calls. -/
def writeDeltas {σ : Type} (sw : σ → List Nat → σ × Except IOError Nat) :
    WriteTrack σ → List (List Nat) → List Nat
  | _, [] => []
  | wt, d :: ds =>
    acceptedOf (sw wt.inner d).2 :: writeDeltas sw (WriteTrack.write sw wt d).1 ds

/-- A sink used as a concrete witness: it appends everything it is given
and reports all of it accepted. -/
def demoSink : List Nat → List Nat → List Nat × Except IOError Nat :=
  fun s d => (s ++ d, Except.ok d.length)

/-- Rust `impl BinWrite for str`: `writer.write_all(self.as_bytes())`, the
raw UTF-8 bytes verbatim, ignoring the options.  A string value is
represented by its UTF-8 byte list. -/
def str_write_options (s : List Nat) (_o : WriterOption) : List Nat :=
  s

/-- Rust `impl BinWrite for String`: delegate to the `str`
implementation. -/
def string_write_options (s : List Nat) (o : WriterOption) : List Nat :=
  str_write_options s o

/-- Rust `writers::null_terminated_string`: write the formatted text as a
`String`, then write the byte `0u8`.  The argument is the UTF-8 byte list
of the input's `Display` rendering. -/
def null_terminated_string (s : List Nat) (o : WriterOption) : List Nat :=
  string_write_options s o ++ u8_write_options 0 o

/-- UTF-16 code units of one Unicode scalar value, as produced by Rust's
`str::encode_utf16`: scalars below `0x10000` are one unit, the rest become
a surrogate pair. -/
def encodeUtf16Char (c : Nat) : List Nat :=
  if c < 0x10000 then [c]
  else [0xD800 + (c - 0x10000) / 0x400, 0xDC00 + (c - 0x10000) % 0x400]

/-- UTF-16 code units of a text given as its list of Unicode scalar
values (`str::encode_utf16`). -/
def encode_utf16 (s : List Nat) : List Nat :=
  s.flatMap encodeUtf16Char

/-- Rust `writers::utf16_string`: write each UTF-16 code unit of the
formatted text as a `u16` under the active options; no terminator. -/
def utf16_string (host : Bool) (s : List Nat) (o : WriterOption) : List Nat :=
  (encode_utf16 s).flatMap (fun u => u16_write_options host u o)

/-- Rust `writers::utf16_null_string`: `utf16_string` followed by one
`0u16` unit under the same options. -/
def utf16_null_string (host : Bool) (s : List Nat) (o : WriterOption) : List Nat :=
  utf16_string host s o ++ u16_write_options host 0 o

theorem natLE_succ (w n : Nat) :
    natLE (w + 1) n = natLE w n ++ [n / 256 ^ w % 256] := by
  simp [natLE, List.range_succ]

theorem natBE_succ (w n : Nat) :
    natBE (w + 1) n = n / 256 ^ w % 256 :: natBE w n := by
  simp [natBE, List.range_succ_eq_map, List.map_map, Function.comp,
    Nat.succ_sub_succ, Nat.sub_sub, Nat.add_comm]

theorem natBE_eq_reverse (w n : Nat) : natBE w n = (natLE w n).reverse := by
  induction w with
  | zero => rfl
  | succ w ih => rw [natBE_succ, natLE_succ, List.reverse_append, ih]; rfl

theorem endianWrite_big_reverse (w : Nat) (host : Bool) (n : Nat) :
    endianWrite w host n bigOpt = (endianWrite w host n littleOpt).reverse := by
  simp [endianWrite, bigOpt, littleOpt, natBE_eq_reverse]

theorem endianWrite_native (w : Nat) (host : Bool) (n : Nat) :
    endianWrite w host n nativeOpt =
      if host then endianWrite w host n littleOpt
      else endianWrite w host n bigOpt := by
  cases host <;> simp [endianWrite, natNE, nativeOpt, littleOpt, bigOpt]

theorem natLE_length (w n : Nat) : (natLE w n).length = w := by
  simp [natLE]

theorem natBE_length (w n : Nat) : (natBE w n).length = w := by
  simp [natBE]

theorem endianWrite_length (w : Nat) (host : Bool) (n : Nat) (o : WriterOption) :
    (endianWrite w host n o).length = w := by
  cases o with
  | mk e u =>
    cases e <;> cases host <;>
      simp [endianWrite, natNE, natLE_length, natBE_length]

/-- C1: for each multi-byte numeric primitive (u16, u32, u64, i16, i32,
i64, f32, f64), the bytes emitted under `Endian::Big` are the reverse of
the bytes emitted under `Endian::Little`, and `Endian::Native` emits
exactly the byte order matching the host platform (little-endian output on
a little-endian host, big-endian output otherwise), uniformly for every
value — so the choice is fixed per process, not per call. -/
theorem C1_multibyte_big_little_reverse_native_matches_host :
    ∀ (host : Bool) (n : Nat) (i : Int) (bits : Nat),
      (u16_write_options host n bigOpt = (u16_write_options host n littleOpt).reverse
        ∧ u32_write_options host n bigOpt = (u32_write_options host n littleOpt).reverse
        ∧ u64_write_options host n bigOpt = (u64_write_options host n littleOpt).reverse
        ∧ i16_write_options host i bigOpt = (i16_write_options host i littleOpt).reverse
        ∧ i32_write_options host i bigOpt = (i32_write_options host i littleOpt).reverse
        ∧ i64_write_options host i bigOpt = (i64_write_options host i littleOpt).reverse
        ∧ f32_write_options host bits bigOpt = (f32_write_options host bits littleOpt).reverse
        ∧ f64_write_options host bits bigOpt = (f64_write_options host bits littleOpt).reverse)
      ∧ (u16_write_options host n nativeOpt =
            (if host then u16_write_options host n littleOpt else u16_write_options host n bigOpt)
        ∧ u32_write_options host n nativeOpt =
            (if host then u32_write_options host n littleOpt else u32_write_options host n bigOpt)
        ∧ u64_write_options host n nativeOpt =
            (if host then u64_write_options host n littleOpt else u64_write_options host n bigOpt)
        ∧ i16_write_options host i nativeOpt =
            (if host then i16_write_options host i littleOpt else i16_write_options host i bigOpt)
        ∧ i32_write_options host i nativeOpt =
            (if host then i32_write_options host i littleOpt else i32_write_options host i bigOpt)
        ∧ i64_write_options host i nativeOpt =
            (if host then i64_write_options host i littleOpt else i64_write_options host i bigOpt)
        ∧ f32_write_options host bits nativeOpt =
            (if host then f32_write_options host bits littleOpt else f32_write_options host bits bigOpt)
        ∧ f64_write_options host bits nativeOpt =
            (if host then f64_write_options host bits littleOpt else f64_write_options host bits bigOpt)) := by
  intro host n i bits
  refine ⟨⟨?_, ?_, ?_, ?_, ?_, ?_, ?_, ?_⟩, ?_, ?_, ?_, ?_, ?_, ?_, ?_, ?_⟩ <;>
    first
      | exact endianWrite_big_reverse _ _ _
      | exact endianWrite_native _ _ _

/-- C2 (counterexample part): the claim asserts an encoder for every
integer width from 8 through 128 bits that the host language supports;
Rust supports 128-bit integers, but the source provides `BinWrite`
implementations only for the 8-, 16-, 32- and 64-bit integer types, so no
128-bit encoder exists. -/
theorem C2_no_128_bit_encoder : ¬ (128 ∈ supportedIntWidths) := by
  decide

/-- C2 (amended): for each integer width the source actually implements
(8, 16, 32, 64 bits, signed and unsigned) and the 32- and 64-bit floats, the
encoder emits exactly `width / 8` bytes in the byte order selected by the
options; encoding u32 value 1 yields `01 00 00 00` under Little order and
`00 00 00 01` under Big order. -/
theorem C2_width_over_eight_bytes :
    ∀ (host : Bool) (n : Nat) (i : Int) (bits : Nat) (o : WriterOption),
      ((u8_write_options n o).length = 1
        ∧ (i8_write_options i o).length = 1
        ∧ (u16_write_options host n o).length = 2
        ∧ (u32_write_options host n o).length = 4
        ∧ (u64_write_options host n o).length = 8
        ∧ (i16_write_options host i o).length = 2
        ∧ (i32_write_options host i o).length = 4
        ∧ (i64_write_options host i o).length = 8
        ∧ (f32_write_options host bits o).length = 4
        ∧ (f64_write_options host bits o).length = 8)
      ∧ (u32_write_options host 1 littleOpt = [1, 0, 0, 0]
        ∧ u32_write_options host 1 bigOpt = [0, 0, 0, 1]) := by
  intro host n i bits o
  refine ⟨⟨rfl, rfl, ?_, ?_, ?_, ?_, ?_, ?_, ?_, ?_⟩, ?_, ?_⟩
  · exact endianWrite_length 2 host n o
  · exact endianWrite_length 4 host n o
  · exact endianWrite_length 8 host n o
  · exact endianWrite_length 2 host (toUnsigned 2 i) o
  · exact endianWrite_length 4 host (toUnsigned 4 i) o
  · exact endianWrite_length 8 host (toUnsigned 8 i) o
  · exact endianWrite_length 4 host bits o
  · exact endianWrite_length 8 host bits o
  · simp [u32_write_options, endianWrite, littleOpt]
    decide
  · simp [u32_write_options, endianWrite, bigOpt]
    decide

theorem vec_write_options_pure {α : Type}
    (enc : α → List Nat → WriterOption → List Nat × Option IOError)
    (f : α → WriterOption → List Nat)
    (hpure : ∀ x s o, enc x s o = (s ++ f x o, none)) :
    ∀ (l : List α) (s : List Nat) (o : WriterOption),
      vec_write_options enc l s o =
        (s ++ (l.map (fun x => f x o)).flatten, none) := by
  intro l
  induction l with
  | nil => intro s o; simp [vec_write_options]
  | cons x xs ih => intro s o; simp [vec_write_options, hpure, ih]

theorem slice_write_options_pure {α : Type}
    (enc : α → List Nat → WriterOption → List Nat × Option IOError)
    (f : α → WriterOption → List Nat)
    (hpure : ∀ x s o, enc x s o = (s ++ f x o, none)) :
    ∀ (l : List α) (s : List Nat) (o : WriterOption),
      slice_write_options enc l s o =
        (s ++ (l.map (fun x => f x o)).flatten, none) := by
  intro l
  induction l with
  | nil => intro s o; simp [slice_write_options]
  | cons x xs ih => intro s o; simp [slice_write_options, hpure, ih]

theorem array_write_options_pure {α : Type}
    (enc : α → List Nat → WriterOption → List Nat × Option IOError)
    (f : α → WriterOption → List Nat)
    (hpure : ∀ x s o, enc x s o = (s ++ f x o, none)) :
    ∀ (l : List α) (s : List Nat) (o : WriterOption),
      array_write_options enc l s o =
        (s ++ (l.map (fun x => f x o)).flatten, none) := by
  intro l
  induction l with
  | nil => intro s o; simp [array_write_options]
  | cons x xs ih => intro s o; simp [array_write_options, hpure, ih]

theorem tuple_write_options_pure
    (outs : List (WriterOption → List Nat)) :
    ∀ (s : List Nat) (o : WriterOption),
      tuple_write_options (outs.map liftWriter) s o =
        (s ++ (outs.map (fun g => g o)).flatten, none) := by
  induction outs with
  | nil => intro s o; simp [tuple_write_options]
  | cons g gs ih => intro s o; simp [tuple_write_options, liftWriter, ih]

/-- C3: a `Vec`, slice or fixed-size array (sizes 0 through 20) of
encodable elements is encoded by writing element 0, 1, ..., N-1, each with
the same options; when every element encoder is pure (appends a function
of the element and the options, never fails), the output is exactly the
concatenation of the elements' independent encodings in index order, and
the empty sequence or array succeeds writing zero bytes. -/
theorem C3_sequence_is_concatenation {α : Type}
    (enc : α → List Nat → WriterOption → List Nat × Option IOError)
    (f : α → WriterOption → List Nat)
    (hpure : ∀ x s o, enc x s o = (s ++ f x o, none)) :
    (∀ (l : List α) (s : List Nat) (o : WriterOption),
        vec_write_options enc l s o =
          (s ++ (l.map (fun x => f x o)).flatten, none))
    ∧ (∀ (l : List α) (s : List Nat) (o : WriterOption),
        slice_write_options enc l s o =
          (s ++ (l.map (fun x => f x o)).flatten, none))
    ∧ (∀ (l : List α) (s : List Nat) (o : WriterOption), l.length ≤ 20 →
        array_write_options enc l s o =
          (s ++ (l.map (fun x => f x o)).flatten, none))
    ∧ (∀ (s : List Nat) (o : WriterOption),
        vec_write_options enc [] s o = (s, none))
    ∧ (∀ (s : List Nat) (o : WriterOption),
        array_write_options enc [] s o = (s, none)) :=
  ⟨vec_write_options_pure enc f hpure,
   slice_write_options_pure enc f hpure,
   fun l s o _ => array_write_options_pure enc f hpure l s o,
   fun _ _ => rfl,
   fun _ _ => rfl⟩

/-- Witness for C3 at a concrete instance. -/
theorem C3_sequence_is_concatenation_witness :
    (∀ (x : Nat) (s : List Nat) (o : WriterOption),
        u8Elem x s o = (s ++ u8_write_options x o, none))
    ∧ vec_write_options u8Elem [1, 2, 3] [] bigOpt = ([1, 2, 3], none)
    ∧ array_write_options u8Elem [1, 2, 3] [] bigOpt = ([1, 2, 3], none) := by
  have h := C3_sequence_is_concatenation u8Elem u8_write_options
    (fun x s o => rfl)
  exact ⟨fun x s o => rfl,
    by rw [h.1 [1, 2, 3] [] bigOpt]; decide,
    by rw [h.2.2.1 [1, 2, 3] [] bigOpt (by decide)]; decide⟩

/-- C4: a tuple of arity 0 through 20 of encodable fields is encoded by
writing each field in declaration order with the same options; when every
field is a lifted pure writer, the output is the concatenation of the
fields' independent encodings; the empty tuple writes zero bytes and
always succeeds; the tuple (u16 3, u16 4) under Big order encodes to
`00 03 00 04`. -/
theorem C4_tuple_is_concatenation
    (outs : List (WriterOption → List Nat)) (_h20 : outs.length ≤ 20) :
    (∀ (s : List Nat) (o : WriterOption),
        tuple_write_options (outs.map liftWriter) s o =
          (s ++ (outs.map (fun g => g o)).flatten, none))
    ∧ (∀ (s : List Nat) (o : WriterOption),
        tuple_write_options [] s o = (s, none))
    ∧ (∀ host : Bool,
        tuple_write_options
          [liftWriter (u16_write_options host 3), liftWriter (u16_write_options host 4)]
          [] bigOpt = ([0, 3, 0, 4], none)) := by
  refine ⟨tuple_write_options_pure outs, fun _ _ => rfl, ?_⟩
  intro host
  simp [tuple_write_options, liftWriter, u16_write_options, endianWrite, bigOpt]
  decide

/-- Witness for C4 at a concrete instance. -/
theorem C4_tuple_is_concatenation_witness :
    ([fun o => u8_write_options 9 o].length ≤ 20)
    ∧ tuple_write_options
        ([fun o => u8_write_options 9 o].map liftWriter) [] littleOpt
        = ([9], none)
    ∧ tuple_write_options
        [liftWriter (u16_write_options true 3), liftWriter (u16_write_options true 4)]
        [] bigOpt = ([0, 3, 0, 4], none) := by
  have h := C4_tuple_is_concatenation [fun o => u8_write_options 9 o] (by decide)
  exact ⟨by decide, by rw [h.1 [] littleOpt]; decide, h.2.2 true⟩

theorem vec_write_options_append {α : Type}
    (enc : α → List Nat → WriterOption → List Nat × Option IOError) :
    ∀ (l₁ l₂ : List α) (s : List Nat) (o : WriterOption),
      vec_write_options enc (l₁ ++ l₂) s o =
        match vec_write_options enc l₁ s o with
        | (s', none) => vec_write_options enc l₂ s' o
        | (s', some e) => (s', some e) := by
  intro l₁
  induction l₁ with
  | nil => intro l₂ s o; simp [vec_write_options]
  | cons x xs ih =>
    intro l₂ s o
    simp only [List.cons_append, vec_write_options]
    cases enc x s o with
    | mk s' r => cases r <;> simp [ih]

theorem slice_write_options_append {α : Type}
    (enc : α → List Nat → WriterOption → List Nat × Option IOError) :
    ∀ (l₁ l₂ : List α) (s : List Nat) (o : WriterOption),
      slice_write_options enc (l₁ ++ l₂) s o =
        match slice_write_options enc l₁ s o with
        | (s', none) => slice_write_options enc l₂ s' o
        | (s', some e) => (s', some e) := by
  intro l₁
  induction l₁ with
  | nil => intro l₂ s o; simp [slice_write_options]
  | cons x xs ih =>
    intro l₂ s o
    simp only [List.cons_append, slice_write_options]
    cases enc x s o with
    | mk s' r => cases r <;> simp [ih]

theorem array_write_options_append {α : Type}
    (enc : α → List Nat → WriterOption → List Nat × Option IOError) :
    ∀ (l₁ l₂ : List α) (s : List Nat) (o : WriterOption),
      array_write_options enc (l₁ ++ l₂) s o =
        match array_write_options enc l₁ s o with
        | (s', none) => array_write_options enc l₂ s' o
        | (s', some e) => (s', some e) := by
  intro l₁
  induction l₁ with
  | nil => intro l₂ s o; simp [array_write_options]
  | cons x xs ih =>
    intro l₂ s o
    simp only [List.cons_append, array_write_options]
    cases enc x s o with
    | mk s' r => cases r <;> simp [ih]

theorem tuple_write_options_append :
    ∀ (gs₁ gs₂ : List (List Nat → WriterOption → List Nat × Option IOError))
      (s : List Nat) (o : WriterOption),
      tuple_write_options (gs₁ ++ gs₂) s o =
        match tuple_write_options gs₁ s o with
        | (s', none) => tuple_write_options gs₂ s' o
        | (s', some e) => (s', some e) := by
  intro gs₁
  induction gs₁ with
  | nil => intro gs₂ s o; simp [tuple_write_options]
  | cons g gs ih =>
    intro gs₂ s o
    simp only [List.cons_append, tuple_write_options]
    cases g s o with
    | mk s' r => cases r <;> simp [ih]

/-- C5: every composite encoder (Vec, slice, array, tuple) stops at the
first element whose encoding fails, returns that element's failure value
unchanged, leaves in the sink exactly what was written up to and including
the failing element's own partial writes, and never encodes the elements
after the failing one (the result does not depend on them). -/
theorem C5_first_failure_aborts {α : Type} :
    (∀ (enc : α → List Nat → WriterOption → List Nat × Option IOError)
        (pre post : List α) (x : α) (s s₁ s₂ : List Nat) (e : IOError)
        (o : WriterOption),
        vec_write_options enc pre s o = (s₁, none) →
        enc x s₁ o = (s₂, some e) →
        vec_write_options enc (pre ++ x :: post) s o = (s₂, some e))
    ∧ (∀ (enc : α → List Nat → WriterOption → List Nat × Option IOError)
        (pre post : List α) (x : α) (s s₁ s₂ : List Nat) (e : IOError)
        (o : WriterOption),
        slice_write_options enc pre s o = (s₁, none) →
        enc x s₁ o = (s₂, some e) →
        slice_write_options enc (pre ++ x :: post) s o = (s₂, some e))
    ∧ (∀ (enc : α → List Nat → WriterOption → List Nat × Option IOError)
        (pre post : List α) (x : α) (s s₁ s₂ : List Nat) (e : IOError)
        (o : WriterOption),
        array_write_options enc pre s o = (s₁, none) →
        enc x s₁ o = (s₂, some e) →
        array_write_options enc (pre ++ x :: post) s o = (s₂, some e))
    ∧ (∀ (pre post : List (List Nat → WriterOption → List Nat × Option IOError))
        (g : List Nat → WriterOption → List Nat × Option IOError)
        (s s₁ s₂ : List Nat) (e : IOError) (o : WriterOption),
        tuple_write_options pre s o = (s₁, none) →
        g s₁ o = (s₂, some e) →
        tuple_write_options (pre ++ g :: post) s o = (s₂, some e)) := by
  refine ⟨?_, ?_, ?_, ?_⟩
  · intro enc pre post x s s₁ s₂ e o hpre hx
    rw [vec_write_options_append, hpre]
    simp [vec_write_options, hx]
  · intro enc pre post x s s₁ s₂ e o hpre hx
    rw [slice_write_options_append, hpre]
    simp [slice_write_options, hx]
  · intro enc pre post x s s₁ s₂ e o hpre hx
    rw [array_write_options_append, hpre]
    simp [array_write_options, hx]
  · intro pre post g s s₁ s₂ e o hpre hg
    rw [tuple_write_options_append, hpre]
    simp [tuple_write_options, hg]

/-- Witness for C5 at a concrete instance: in `[1, 2, 200, 3]` the element
200 fails, so the vector write keeps the bytes of 1 and 2, returns the
failure of 200 unchanged, and never reaches 3. -/
theorem C5_first_failure_aborts_witness :
    vec_write_options failElem [1, 2] [] littleOpt = ([1, 2], none)
    ∧ failElem 200 [1, 2] littleOpt = ([1, 2], some (IOError.other 7))
    ∧ vec_write_options failElem ([1, 2] ++ 200 :: [3]) [] littleOpt
        = ([1, 2], some (IOError.other 7)) :=
  ⟨by decide, by decide,
   (C5_first_failure_aborts (α := Nat)).1 failElem [1, 2] [3] 200 [] [1, 2] [1, 2]
     (IOError.other 7) littleOpt (by decide) (by decide)⟩

theorem write_pos_accepted {σ : Type}
    (sw : σ → List Nat → σ × Except IOError Nat)
    (wt : WriteTrack σ) (d : List Nat) :
    (WriteTrack.write sw wt d).1.pos = wt.pos + acceptedOf (sw wt.inner d).2 := by
  rcases h : sw wt.inner d with ⟨s', r⟩
  cases r <;> simp [WriteTrack.write, h, acceptedOf]

theorem writeMany_pos {σ : Type}
    (sw : σ → List Nat → σ × Except IOError Nat) :
    ∀ (ds : List (List Nat)) (wt : WriteTrack σ),
      (writeMany sw wt ds).pos = wt.pos + (writeDeltas sw wt ds).sum := by
  intro ds
  induction ds with
  | nil => intro wt; simp [writeMany, writeDeltas]
  | cons d ds ih =>
    intro wt
    simp [writeMany, writeDeltas, ih, write_pos_accepted, Nat.add_assoc]

theorem seek_current_ne {σ : Type} (wt : WriteTrack σ) (i : Int) (h : i ≠ 0) :
    WriteTrack.seek wt (SeekFrom.Current i) = Except.error IOError.invalidInput := by
  cases i with
  | ofNat n =>
    cases n with
    | zero => exact absurd rfl h
    | succ m => rfl
  | negSucc n => rfl

theorem seek_end_ne {σ : Type} (wt : WriteTrack σ) (i : Int) (h : i ≠ 0) :
    WriteTrack.seek wt (SeekFrom.End i) = Except.error IOError.invalidInput := by
  cases i with
  | ofNat n =>
    cases n with
    | zero => exact absurd rfl h
    | succ m => rfl
  | negSucc n => rfl

/-- C6: the tracking adapter starts with counter 0; a write increments the
counter by exactly the bytes the sink reports accepted (unchanged on
error) and returns the sink's result unchanged; after any sequence of
writes the counter equals the initial counter plus the sum of the accepted
amounts, and a zero-offset query relative to the current position or to
the end reports it; every other query (absolute positioning, or a nonzero
relative offset) fails with the invalid-argument condition. -/
theorem C6_write_track_counter_and_seek {σ : Type}
    (sw : σ → List Nat → σ × Except IOError Nat) :
    (∀ s0 : σ, (WriteTrack.new s0).pos = 0)
    ∧ (∀ (wt : WriteTrack σ) (d : List Nat) (s' : σ) (a : Nat),
        sw wt.inner d = (s', Except.ok a) →
        WriteTrack.write sw wt d = (⟨s', wt.pos + a⟩, Except.ok a))
    ∧ (∀ (wt : WriteTrack σ) (d : List Nat) (s' : σ) (e : IOError),
        sw wt.inner d = (s', Except.error e) →
        WriteTrack.write sw wt d = (⟨s', wt.pos⟩, Except.error e))
    ∧ (∀ (wt : WriteTrack σ) (d : List Nat),
        (WriteTrack.write sw wt d).2 = (sw wt.inner d).2)
    ∧ (∀ (wt : WriteTrack σ) (ds : List (List Nat)),
        (writeMany sw wt ds).pos = wt.pos + (writeDeltas sw wt ds).sum)
    ∧ (∀ wt : WriteTrack σ,
        WriteTrack.seek wt (SeekFrom.Current 0) = Except.ok wt.pos)
    ∧ (∀ wt : WriteTrack σ,
        WriteTrack.seek wt (SeekFrom.End 0) = Except.ok wt.pos)
    ∧ (∀ (wt : WriteTrack σ) (n : Nat),
        WriteTrack.seek wt (SeekFrom.Start n) = Except.error IOError.invalidInput)
    ∧ (∀ (wt : WriteTrack σ) (i : Int), i ≠ 0 →
        WriteTrack.seek wt (SeekFrom.Current i) = Except.error IOError.invalidInput)
    ∧ (∀ (wt : WriteTrack σ) (i : Int), i ≠ 0 →
        WriteTrack.seek wt (SeekFrom.End i) = Except.error IOError.invalidInput) := by
  refine ⟨fun _ => rfl, ?_, ?_, ?_, fun wt ds => writeMany_pos sw ds wt,
    fun _ => rfl, fun _ => rfl, fun _ _ => rfl,
    seek_current_ne, seek_end_ne⟩
  · intro wt d s' a h
    simp [WriteTrack.write, h]
  · intro wt d s' e h
    simp [WriteTrack.write, h]
  · intro wt d
    rcases h : sw wt.inner d with ⟨s', r⟩
    cases r <;> simp [WriteTrack.write, h]

/-- Witness for C6 at a concrete instance. -/
theorem C6_write_track_counter_and_seek_witness :
    demoSink [] [5, 6] = ([5, 6], Except.ok 2)
    ∧ WriteTrack.write demoSink (WriteTrack.new []) [5, 6]
        = (⟨[5, 6], 2⟩, Except.ok 2)
    ∧ (7 : Int) ≠ 0
    ∧ WriteTrack.seek (WriteTrack.new ([] : List Nat)) (SeekFrom.Current 7)
        = Except.error IOError.invalidInput
    ∧ WriteTrack.seek (writeMany demoSink (WriteTrack.new ([] : List Nat)) [[5], [6, 7]])
        (SeekFrom.Current 0) = Except.ok 3 := by
  have h := C6_write_track_counter_and_seek (σ := List Nat) demoSink
  refine ⟨rfl, h.2.1 (WriteTrack.new []) [5, 6] [5, 6] 2 rfl, by decide,
    h.2.2.2.2.2.2.2.2.1 (WriteTrack.new []) 7 (by decide), ?_⟩
  rw [h.2.2.2.2.2.1 (writeMany demoSink (WriteTrack.new []) [[5], [6, 7]])]
  rfl

theorem natLE_two (u : Nat) : natLE 2 u = [u % 256, u / 256 % 256] := by
  simp [natLE, List.range_succ]

theorem natBE_two (u : Nat) : natBE 2 u = [u / 256 % 256, u % 256] := by
  simp [natBE, List.range_succ]

theorem utf16_string_little (host : Bool) (s : List Nat) :
    utf16_string host s littleOpt =
      (encode_utf16 s).flatMap (fun u => [u % 256, u / 256 % 256]) := by
  simp [utf16_string, u16_write_options, endianWrite, littleOpt, natLE_two]

theorem utf16_string_big (host : Bool) (s : List Nat) :
    utf16_string host s bigOpt =
      (encode_utf16 s).flatMap (fun u => [u / 256 % 256, u % 256]) := by
  simp [utf16_string, u16_write_options, endianWrite, bigOpt, natBE_two]

/-- C7: the null-terminated text encoder writes the input's UTF-8 bytes
followed by exactly one zero byte; `"abc"` encodes to `61 62 63 00`. -/
theorem C7_null_terminated_appends_zero :
    ∀ (s : List Nat) (o : WriterOption),
      null_terminated_string s o = s ++ [0]
      ∧ null_terminated_string [0x61, 0x62, 0x63] o = [0x61, 0x62, 0x63, 0] :=
  fun _ _ => ⟨rfl, rfl⟩

/-- C8: the wide-text encoder writes each UTF-16 code unit of the input as
a `u16` in the byte order the options select, with no terminator, and the
wide null-terminated variant appends one 16-bit zero unit in the same
byte order; `"ab"` under Little order encodes to `61 00 62 00` and the
null-terminated `"a"` under Big order to `00 61 00 00`. -/
theorem C8_utf16_units_under_byte_order :
    ∀ (host : Bool) (s : List Nat) (o : WriterOption),
      (utf16_string host s littleOpt =
          (encode_utf16 s).flatMap (fun u => [u % 256, u / 256 % 256]))
      ∧ (utf16_string host s bigOpt =
          (encode_utf16 s).flatMap (fun u => [u / 256 % 256, u % 256]))
      ∧ (utf16_null_string host s o = utf16_string host s o ++ u16_write_options host 0 o)
      ∧ (utf16_string host [0x61, 0x62] littleOpt = [0x61, 0, 0x62, 0])
      ∧ (utf16_null_string host [0x61] bigOpt = [0, 0x61, 0, 0]) := by
  intro host s o
  refine ⟨utf16_string_little host s, utf16_string_big host s, rfl, ?_, ?_⟩
  · rw [utf16_string_little]
    decide
  · show utf16_string host [0x61] bigOpt ++ u16_write_options host 0 bigOpt = _
    rw [utf16_string_big]
    simp [u16_write_options, endianWrite, bigOpt, natBE_two]
    decide

/-- C9: owned and borrowed text encode to their raw UTF-8 bytes verbatim,
producing identical output under any two options values. -/
theorem C9_text_independent_of_options :
    ∀ (s : List Nat) (o o' : WriterOption),
      str_write_options s o = s
      ∧ string_write_options s o = s
      ∧ str_write_options s o = str_write_options s o'
      ∧ string_write_options s o = string_write_options s o' :=
  fun _ _ _ => ⟨rfl, rfl, rfl, rfl⟩

/-- C10: the character encoder writes exactly one byte, the Unicode scalar
value truncated to its low 8 bits, independent of the options; the CJK
character U+4E2D truncates silently to `2D`. -/
theorem C10_char_truncates_to_low_byte :
    ∀ (c : Nat) (o o' : WriterOption),
      char_write_options c o = [c % 256]
      ∧ (char_write_options c o).length = 1
      ∧ char_write_options c o = char_write_options c o'
      ∧ char_write_options 0x4E2D o = [0x2D] :=
  fun _ _ _ => ⟨rfl, rfl, rfl, rfl⟩

end Binwrite
